import Mathlib

/-!
Verification development for the single-domain BFS crawler in
`src/課題/kadai.py` (`crawl_same_domain`).

The engine is embedded shallowly: URLs are plain strings, the relevant
fragment of Python `urllib.parse.urlparse` is implemented on character
lists, the external collaborators (HTTP transport via `session.get`,
the HTML parser via BeautifulSoup, and `urljoin` resolution) are
parameters gathered in a `World` structure, and the `while` loop of
`crawl_same_domain` becomes a fuel-indexed iteration of a step function
over an explicit state.  Observable actions (GET calls, skip decisions,
`time.sleep` calls) are recorded in an event trace, matching the
instrumentation the specification asks for in its testable properties.
-/

set_option autoImplicit false

namespace Kadai

/-! ## String helpers modelling the Python string operations used -/

/-- Model of `str.lower()` restricted to ASCII letters, which is all the
URL and header comparisons in `kadai.py` rely on (`Char.toLower` maps
exactly the characters A-Z). -/
def strToLower (s : String) : String := ⟨s.data.map Char.toLower⟩

/-- Model of `str.strip()` (ASCII whitespace): drop leading and
trailing whitespace characters. -/
def strTrim (s : String) : String :=
  ⟨((s.data.dropWhile Char.isWhitespace).reverse.dropWhile Char.isWhitespace).reverse⟩

/-- Model of `str.startswith(prefix)`. -/
def strStartsWith (s p : String) : Bool := p.data.isPrefixOf s.data

/-- Model of `str.endswith(suffix)`. -/
def strEndsWith (s suffix : String) : Bool := suffix.data.isSuffixOf s.data

/-- Model of the substring test `needle in haystack` used for the
Content-Type check, on character lists. -/
def containsSubL (needle : List Char) : List Char → Bool
  | [] => needle.isEmpty
  | c :: rest => needle.isPrefixOf (c :: rest) || containsSubL needle rest

/-- Model of Python substring membership `needle in haystack`. -/
def containsSub (needle hay : String) : Bool := containsSubL needle.data hay.data

/-- Model of `str.rstrip('/')` on character lists: removes every trailing
slash character (kadai.py lines 34 and 127). -/
def rstripSlashL : List Char → List Char
  | [] => []
  | c :: cs =>
    match rstripSlashL cs with
    | [] => if c = '/' then [] else [c]
    | r => c :: r

/-- Model of `str.rstrip('/')` on strings. -/
def rstripSlash (s : String) : String := ⟨rstripSlashL s.data⟩

/-- Model of `url.split('#')[0]` (kadai.py line 120): the prefix of the
string before the first `#`. -/
def dropFragment (s : String) : String := ⟨s.data.takeWhile (fun c => c ≠ '#')⟩

/-! ## The fragment of `urllib.parse.urlparse` that kadai.py uses

`crawl_same_domain` only reads `.scheme` and `.netloc` of parse results
(lines 30-32 and 121-124); the spec-side statement of the extension
filter additionally needs the path component.  The functions below
implement the corresponding fragment of CPython `urllib.parse.urlsplit`:
the scheme is the prefix before the first `:` when that prefix is a
valid scheme token (then lower-cased), the network location follows a
literal `//`, and it extends to the first `/`, `?` or `#`. -/

/-- Characters CPython allows inside a URL scheme token. -/
def isSchemeChar (c : Char) : Bool :=
  c.isAlpha || c.isDigit || c = '+' || c = '-' || c = '.'

/-- Split a character list at the first colon, returning the prefix and
the remainder, or `none` when there is no colon. -/
def splitAtColon : List Char → Option (List Char × List Char)
  | [] => none
  | c :: cs =>
    if c = ':' then some ([], cs)
    else (splitAtColon cs).map (fun p => (c :: p.1, p.2))

/-- Validity test CPython applies to the candidate scheme: nonempty,
starts with a letter, all characters scheme characters. -/
def validScheme (a : List Char) : Bool :=
  match a with
  | [] => false
  | c :: _ => c.isAlpha && a.all isSchemeChar

/-- Scheme extraction step of `urlsplit`: returns the (lower-cased)
scheme and the rest of the URL after the colon; an invalid or missing
scheme yields an empty scheme and the whole input as rest. -/
def schemeRest (cs : List Char) : List Char × List Char :=
  match splitAtColon cs with
  | some (a, r) => if validScheme a then (a.map Char.toLower, r) else ([], cs)
  | none => ([], cs)

/-- Characters that terminate the network-location component. -/
def nonDelim (c : Char) : Bool := !(c = '/' || c = '?' || c = '#')

/-- Network-location extraction step of `urlsplit`: when the rest after
the scheme starts with `//`, the netloc runs to the first `/`, `?` or
`#`; otherwise it is empty. -/
def netlocSplit : List Char → List Char × List Char
  | c1 :: c2 :: rest =>
    if c1 = '/' ∧ c2 = '/' then (rest.takeWhile nonDelim, rest.dropWhile nonDelim)
    else ([], c1 :: c2 :: rest)
  | cs => ([], cs)

/-- The `.scheme` field of `urlparse` for the embedded fragment. -/
def urlScheme (s : String) : String := ⟨(schemeRest s.data).1⟩

/-- The `.netloc` field of `urlparse` for the embedded fragment. -/
def urlHost (s : String) : String := ⟨(netlocSplit (schemeRest s.data).2).1⟩

/-- The `.path` field of `urlparse` for the embedded fragment: after
scheme and netloc, the fragment is split off at the first `#` and the
query at the first `?`. -/
def urlPath (s : String) : String :=
  ⟨((netlocSplit (schemeRest s.data).2).2.takeWhile (fun c => c ≠ '#')).takeWhile
      (fun c => c ≠ '?')⟩

/-! ## Extension filter (kadai.py lines 10-14 and 67-68) -/

/-- The tuple `EXCLUDED_EXTENSIONS` of kadai.py lines 10-14. -/
def EXCLUDED_EXTENSIONS : List String :=
  [".pdf", ".jpg", ".jpeg", ".png", ".gif", ".svg",
   ".bmp", ".webp", ".tiff", ".css", ".js", ".xml", ".zip",
   ".mp4", ".mov", ".avi", ".doc", ".docx", ".xls", ".xlsx", ".ppt", ".pptx"]

/-- Model of the pre-fetch exclusion test of kadai.py line 67:
`any(current_url.lower().endswith(ext) for ext in EXCLUDED_EXTENSIONS)`.
Note the test lower-cases and inspects the whole URL string, not only
its path component. -/
def isExcludedUrl (url : String) : Bool :=
  EXCLUDED_EXTENSIONS.any (fun ext => strEndsWith (strToLower url) ext)

/-- Statement of the extension filter as worded by the specification
(spec section 4.2), for comparison with `isExcludedUrl`: lower-case the
path of the URL and test whether the path ends with a member of the
suffix set.  This definition follows the words of the spec, not the
code. -/
def specPathExcluded (url : String) : Bool :=
  EXCLUDED_EXTENSIONS.any (fun ext => strEndsWith (strToLower (urlPath url)) ext)

/-! ## Comment removal (kadai.py line 101)

The source line is `re.sub(r'', '', html_content, flags=re.DOTALL)`.
The regular expression pattern is the empty string: it matches the
empty string at every position, and substituting the empty replacement
for those matches returns the input unchanged.  The faithful embedding
of line 101 is therefore the identity function. -/

/-- Model of kadai.py line 101 (`html_content_cleaned = re.sub(r'', '',
html_content, flags=re.DOTALL)`): the empty pattern makes this the
identity on the decoded body. -/
def removeHtmlComments (s : String) : String := s

/-! ## Title extraction (kadai.py lines 105-107) -/

/-- Parsed-document interface of the BeautifulSoup collaborator, as
used by kadai.py: `titleTag` models `soup.find('title')` (`none` when
no title element exists) together with `.string` of that element
(inner `none` when the element has no single text child); `hrefs`
models the `href` values of `soup.find_all('a', href=True)` in document
order. -/
structure HtmlDoc where
  titleTag : Option (Option String)
  hrefs : List String
  deriving DecidableEq, Repr

/-- Model of kadai.py line 107: `title_tag.string.strip() if title_tag
and title_tag.string else "タイトルなし"`.  An empty `.string` is falsy
in Python, hence also mapped to the sentinel. -/
def extractTitle (d : HtmlDoc) : String :=
  match d.titleTag with
  | some (some s) => if s = "" then "タイトルなし" else strTrim s
  | _ => "タイトルなし"

/-! ## Robots policy (kadai.py lines 49-56 and 71)

`crawl_same_domain` delegates the policy decision to
`urllib.robotparser.RobotFileParser`.  The collaborator is modelled
from CPython: `read()` fetches the robots URL; an `HTTPError` with code
401 or 403 sets `disallow_all`, other 4xx codes set `allow_all`, a
successful fetch parses the rules and marks the parser as checked, and
any other exception propagates out of `read()` — in kadai.py it is then
caught at lines 55-56, leaving the parser in its initial state.
`can_fetch` answers `False` while `disallow_all` is set, `True` while
`allow_all` is set, and — crucially — `False` whenever the file has
never been successfully read (`last_checked` still zero). -/

/-- State of the `RobotFileParser` collaborator after start-up. -/
structure RobotState where
  disallowAll : Bool
  allowAll : Bool
  lastChecked : Bool
  rules : String → Bool

/-- Outcome of fetching `{scheme}://{host}/robots.txt` at start-up:
a successful parse with the resulting per-URL rule decision, an HTTP
error with its status code, or an exception raised out of `read()`. -/
inductive RobotsFetch where
  | ok (rules : String → Bool)
  | httpError (code : Nat)
  | raises

/-- Model of `robot_parser.read()` wrapped in the try/except of
kadai.py lines 52-56: HTTP errors are absorbed into the `disallow_all`
or `allow_all` flags by `RobotFileParser.read`, a successful read
parses the rules and sets `last_checked`, and a raised exception is
caught by kadai.py leaving the freshly constructed parser untouched. -/
def robotsRead : RobotsFetch → RobotState
  | .ok rules => ⟨false, false, true, rules⟩
  | .httpError code =>
    if code = 401 ∨ code = 403 then ⟨true, false, false, fun _ => true⟩
    else if 400 ≤ code ∧ code < 500 then ⟨false, true, false, fun _ => true⟩
    else ⟨false, false, false, fun _ => true⟩
  | .raises => ⟨false, false, false, fun _ => true⟩

/-- Model of `RobotFileParser.can_fetch` (the user agent argument is
the fixed constant `USER_AGENT` and is pre-applied in `rules`). -/
def canFetch (st : RobotState) (url : String) : Bool :=
  if st.disallowAll then false
  else if st.allowAll then true
  else if !st.lastChecked then false
  else st.rules url

/-! ## External collaborators and the crawl engine -/

/-- Response of the HTTP transport collaborator at the `session.get`
boundary (kadai.py line 79): status code, the `Content-Type` header
value when present (`headers.get` with default), and the decoded body
text (`response.text` after the `apparent_encoding` assignment of
lines 97-98). -/
structure Response where
  status : Nat
  contentType : Option String
  body : String
  deriving DecidableEq, Repr

/-- The external collaborators of one crawl run: `fetch` is the
transport (`none` models a raised `requests.exceptions.RequestException`,
covering connection errors and timeouts), `parse` is the BeautifulSoup
collaborator applied to the cleaned body (`none` models any other
exception raised while decoding or parsing the page, caught at kadai.py
line 135), and `resolve` is `urllib.parse.urljoin`. -/
structure World where
  fetch : String → Option Response
  parse : String → Option HtmlDoc
  resolve : String → String → String

/-- Immutable per-run settings: the seed URL and the page budget
(`start_url` and `max_pages` of `crawl_same_domain`). -/
structure CrawlConfig where
  startUrl : String
  maxPages : Nat

/-- The base domain of a run: `base_domain = urlparse(start_url).netloc`
(kadai.py lines 30-31). -/
def baseDomain (cfg : CrawlConfig) : String := urlHost cfg.startUrl

/-- Observable events of a run, in chronological order: a `fetch` event
records one `session.get` call for the given URL, the skip and error
events record the logged skip reasons, and `sleep` records one
`time.sleep(0.5)` call (kadai.py line 139). -/
inductive Event where
  | fetch (url : String)
  | skipExtension (url : String)
  | skipRobots (url : String)
  | skipStatus (url : String) (code : Nat)
  | skipContentType (url : String) (ct : String)
  | errorRequest (url : String)
  | errorOther (url : String)
  | sleep
  deriving DecidableEq, Repr

/-- Mutable state of the crawl loop.  `queue` is `urls_to_visit` (head
is the front of the deque), `seen` is `seen_urls`, `results` is
`scraped_pages` in insertion order.  `trace`, `popped` and
`enqueuedLog` are observation fields: the event trace, the URLs popped
from the frontier in order, and every URL ever placed in the frontier
(seed included), in order. -/
structure CrawlState where
  queue : List String
  seen : List String
  results : List (String × String)
  trace : List Event
  popped : List String
  enqueuedLog : List String
  deriving DecidableEq, Repr

/-- One step of the link loop of kadai.py lines 112-131, processing a
single href value against the accumulator (seen set, queue, enqueue
log): trim the href, drop `tel:`/`mailto:`/`javascript:` links, resolve
against the current URL and cut the fragment, keep it only when the
scheme is http or https and the host equals the base domain, normalize
by stripping trailing slashes, and enqueue unless already seen. -/
def processHref (w : World) (dom current : String)
    (acc : List String × List String × List String) (href0 : String) :
    List String × List String × List String :=
  let href := strTrim href0
  if strStartsWith href "tel:" || strStartsWith href "mailto:" ||
      strStartsWith href "javascript:" then acc
  else
    let full := dropFragment (w.resolve current href)
    if (urlScheme full = "http" ∨ urlScheme full = "https") ∧ urlHost full = dom then
      let n := rstripSlash full
      if n ∈ acc.1 then acc
      else (acc.1 ++ [n], acc.2.1 ++ [n], acc.2.2 ++ [n])
    else acc

/-- One iteration of the `while` loop body of kadai.py lines 63-139,
for a nonempty frontier.  The branch structure mirrors the source:
extension skip and robots skip `continue` before the fetch; a raised
request exception logs and falls through to the sleep; a non-200 status
or a non-HTML content type `continue` from inside the `try`, skipping
the sleep; any other exception while decoding or parsing logs and falls
through to the sleep; on success the title is recorded and the links
are folded into the seen set and queue, followed by the sleep. -/
def crawlStep (w : World) (cfg : CrawlConfig) (rp : RobotState)
    (s : CrawlState) : CrawlState :=
  match s.queue with
  | [] => s
  | current :: rest =>
    let base : CrawlState := { s with queue := rest, popped := s.popped ++ [current] }
    if isExcludedUrl current then
      { base with trace := base.trace ++ [.skipExtension current] }
    else if !canFetch rp current then
      { base with trace := base.trace ++ [.skipRobots current] }
    else
      match w.fetch current with
      | none =>
        { base with trace := base.trace ++ [.fetch current, .errorRequest current, .sleep] }
      | some resp =>
        if resp.status ≠ 200 then
          { base with trace := base.trace ++ [.fetch current, .skipStatus current resp.status] }
        else
          let ct := strToLower (resp.contentType.getD "")
          if !containsSub "text/html" ct then
            { base with trace := base.trace ++ [.fetch current, .skipContentType current ct] }
          else
            match w.parse (removeHtmlComments resp.body) with
            | none =>
              { base with trace := base.trace ++ [.fetch current, .errorOther current, .sleep] }
            | some doc =>
              let acc := doc.hrefs.foldl (processHref w (baseDomain cfg) current)
                (base.seen, base.queue, base.enqueuedLog)
              { queue := acc.2.1, seen := acc.1,
                results := base.results ++ [(current, extractTitle doc)],
                trace := base.trace ++ [.fetch current, .sleep],
                popped := base.popped, enqueuedLog := acc.2.2 }

/-- The `while urls_to_visit and len(scraped_pages) < max_pages` loop of
kadai.py line 63, indexed by fuel.  The Python loop can run unboundedly
long on an unbounded site graph, so the embedding iterates the step
function a finite number of times; every safety statement below holds
for every fuel value. -/
def crawlLoop (w : World) (cfg : CrawlConfig) (rp : RobotState) :
    Nat → CrawlState → CrawlState
  | 0, s => s
  | Nat.succ fuel, s =>
    if s.queue ≠ [] ∧ s.results.length < cfg.maxPages then
      crawlLoop w cfg rp fuel (crawlStep w cfg rp s)
    else s

/-- Initial state of `crawl_same_domain` (kadai.py lines 34-42): the
seed is normalized by stripping trailing slashes, placed in the queue
and in the seen set, and counts as placed in the frontier. -/
def initState (cfg : CrawlConfig) : CrawlState :=
  let n := rstripSlash cfg.startUrl
  { queue := [n], seen := [n], results := [], trace := [],
    popped := [], enqueuedLog := [n] }

/-- A whole run of `crawl_same_domain`: read robots.txt, then iterate
the loop from the initial state. -/
def runCrawl (w : World) (cfg : CrawlConfig) (rf : RobotsFetch)
    (fuel : Nat) : CrawlState :=
  crawlLoop w cfg (robotsRead rf) fuel (initState cfg)

/-- URLs for which a `session.get` call was issued, in order, read off
the event trace. -/
def fetchedUrls (tr : List Event) : List String :=
  tr.filterMap (fun e => match e with | .fetch u => some u | _ => none)

/-! ## Invariant predicates -/

/-- Invariant of the frontier discipline: popped URLs and queued URLs
are pairwise distinct, everything popped or queued is in the seen set,
result keys and GET targets are sublists of the popped sequence, and
the enqueue log is duplicate-free and inside the seen set. -/
def DedupInv (s : CrawlState) : Prop :=
  (s.popped ++ s.queue).Nodup ∧
  (∀ u ∈ s.popped ++ s.queue, u ∈ s.seen) ∧
  List.Sublist (s.results.map Prod.fst) s.popped ∧
  List.Sublist (fetchedUrls s.trace) s.popped ∧
  s.enqueuedLog.Nodup ∧
  (∀ u ∈ s.enqueuedLog, u ∈ s.seen)

/-- Fold-level part of the dedup invariant, stated over the link
accumulator for a fixed popped sequence. -/
def AccInv (pop : List String) (acc : List String × List String × List String) : Prop :=
  (pop ++ acc.2.1).Nodup ∧
  (∀ u ∈ pop ++ acc.2.1, u ∈ acc.1) ∧
  acc.2.2.Nodup ∧
  (∀ u ∈ acc.2.2, u ∈ acc.1)

/-- Domain-containment invariant (claim C3 machinery): every URL ever
placed in the frontier has scheme http or https and host equal to the
given base domain. -/
def DomInv (d : String) (s : CrawlState) : Prop :=
  ∀ u ∈ s.enqueuedLog,
    (urlScheme u = "http" ∨ urlScheme u = "https") ∧ urlHost u = d

/-- Classification of a URL whose full processing succeeds: the GET
returns a response with status 200 and an HTML content type, and the
parse of the (identity-cleaned) body raises nothing. -/
def fetchOk (w : World) (u : String) : Prop :=
  ∃ r d, w.fetch u = some r ∧ r.status = 200 ∧
    containsSub "text/html" (strToLower (r.contentType.getD "")) = true ∧
    w.parse (removeHtmlComments r.body) = some d

/-- Result-provenance invariant (claim C4 machinery): every recorded
result belongs to a URL whose fetch and parse fully succeeded. -/
def ResOk (w : World) (s : CrawlState) : Prop :=
  ∀ p ∈ s.results, fetchOk w p.1

/-! ## Concrete instantiations used by scenario theorems and witnesses -/

/-- Synthetic site of the BFS testable property: page A links to B and
C, page B links to D, pages C and D have no links.  Every page is
served as HTML with status 200 and a body equal to its URL; hrefs are
absolute, on which `urljoin` acts as the identity. -/
def wBfs : World where
  fetch u :=
    if u = "http://s.test" ∨ u = "http://s.test/b" ∨ u = "http://s.test/c" ∨
        u = "http://s.test/d"
    then some ⟨200, some "text/html", u⟩ else none
  parse b :=
    if b = "http://s.test" then
      some ⟨some (some "A"), ["http://s.test/b", "http://s.test/c"]⟩
    else if b = "http://s.test/b" then some ⟨some (some "B"), ["http://s.test/d"]⟩
    else if b = "http://s.test/c" then some ⟨some (some "C"), []⟩
    else if b = "http://s.test/d" then some ⟨some (some "D"), []⟩
    else none
  resolve _ href := href

/-- Run configuration for the synthetic site, budget 10. -/
def cfgBfs : CrawlConfig := ⟨"http://s.test", 10⟩

/-- Run configuration for the synthetic site with a zero page budget. -/
def cfgZero : CrawlConfig := ⟨"http://s.test", 0⟩

/-- Robots collaborator whose robots.txt was read and parsed, with
rules allowing every URL. -/
def robotsAllowAll : RobotsFetch := .ok fun _ => true

/-- World whose transport raises on every GET. -/
def wFail : World where
  fetch _ := none
  parse _ := none
  resolve _ href := href

/-- World that answers the seed URL with status 404. -/
def wStatus404 : World where
  fetch u := if u = "http://s.test" then some ⟨404, some "text/html", ""⟩ else none
  parse _ := none
  resolve _ href := href

/-- Frontier state holding one excluded URL, for the C7 witness. -/
def sExt : CrawlState :=
  { queue := ["https://x.com/doc.PDF"], seen := ["https://x.com/doc.PDF"],
    results := [], trace := [], popped := [],
    enqueuedLog := ["https://x.com/doc.PDF"] }

/-! ## Lemmas: stripping trailing slashes preserves scheme and netloc

The engine checks scheme and host on `full_url` but enqueues
`full_url.rstrip('/')` (kadai.py lines 120-131), so domain containment
of the frontier rests on these preservation facts. -/

theorem rstripSlashL_decomp (cs : List Char) :
    ∃ ys, cs = rstripSlashL cs ++ ys ∧ ∀ c ∈ ys, c = '/' := by
  induction cs with
  | nil => exact ⟨[], rfl, by simp⟩
  | cons c cs ih =>
    obtain ⟨ys, hd, hy⟩ := ih
    cases hr : rstripSlashL cs with
    | nil =>
      have hcs : ∀ x ∈ cs, x = '/' := by
        intro x hx
        rw [hd, hr] at hx
        exact hy x (by simpa using hx)
      by_cases hc : c = '/'
      · refine ⟨c :: cs, ?_, ?_⟩
        · simp [rstripSlashL, hr, hc]
        · intro x hx
          rcases List.mem_cons.mp hx with h | h
          · rw [h, hc]
          · exact hcs x h
      · refine ⟨cs, ?_, hcs⟩
        simp [rstripSlashL, hr, hc]
    | cons r rs =>
      refine ⟨ys, ?_, hy⟩
      have : rstripSlashL (c :: cs) = c :: r :: rs := by
        simp [rstripSlashL, hr]
      rw [this]
      simpa [hr] using congrArg (c :: ·) hd

theorem splitAtColon_append_some {xs : List Char} {a r : List Char}
    (ys : List Char) (h : splitAtColon xs = some (a, r)) :
    splitAtColon (xs ++ ys) = some (a, r ++ ys) := by
  induction xs generalizing a r with
  | nil => simp [splitAtColon] at h
  | cons c cs ih =>
    by_cases hc : c = ':'
    · simp [splitAtColon, hc] at h ⊢
      exact ⟨h.1, by rw [← h.2]⟩
    · simp only [splitAtColon, if_neg hc] at h ⊢
      rcases Option.map_eq_some'.mp h with ⟨⟨p1, p2⟩, hp, hpa⟩
      have hpa' : (c :: p1, p2) = (a, r) := hpa
      injection hpa' with ha hr
      subst ha
      subst hr
      rw [Option.map_eq_some']
      exact ⟨(p1, p2 ++ ys), ih hp, rfl⟩

theorem splitAtColon_none_of_all_slash {ys : List Char}
    (h : ∀ c ∈ ys, c = '/') : splitAtColon ys = none := by
  induction ys with
  | nil => rfl
  | cons c cs ih =>
    have hc : c = '/' := h c (by simp)
    have : splitAtColon cs = none := ih (fun x hx => h x (by simp [hx]))
    simp [splitAtColon, hc, this]

theorem splitAtColon_append_none {xs ys : List Char}
    (h : splitAtColon xs = none) (hy : ∀ c ∈ ys, c = '/') :
    splitAtColon (xs ++ ys) = none := by
  induction xs with
  | nil => simpa using splitAtColon_none_of_all_slash hy
  | cons c cs ih =>
    by_cases hc : c = ':'
    · simp [splitAtColon, hc] at h
    · simp [splitAtColon, hc] at h ⊢
      exact ih h

theorem schemeRest_append (xs ys : List Char) (hy : ∀ c ∈ ys, c = '/') :
    schemeRest (xs ++ ys) = ((schemeRest xs).1, (schemeRest xs).2 ++ ys) := by
  cases hsc : splitAtColon xs with
  | none =>
    have h2 := splitAtColon_append_none hsc hy
    simp [schemeRest, hsc, h2]
  | some p =>
    rcases p with ⟨a, r⟩
    have h2 := splitAtColon_append_some ys hsc
    by_cases hv : validScheme a
    · simp [schemeRest, hsc, h2, hv]
    · simp [schemeRest, hsc, h2, hv]

theorem takeWhile_nonDelim_all_slash {ys : List Char}
    (h : ∀ c ∈ ys, c = '/') : ys.takeWhile nonDelim = [] := by
  cases ys with
  | nil => rfl
  | cons c cs =>
    have hc : c = '/' := h c (by simp)
    simp [List.takeWhile_cons, hc, nonDelim]

theorem takeWhile_nonDelim_append (q ys : List Char)
    (hy : ∀ c ∈ ys, c = '/') :
    (q ++ ys).takeWhile nonDelim = q.takeWhile nonDelim := by
  induction q with
  | nil => simpa using takeWhile_nonDelim_all_slash hy
  | cons c cs ih =>
    by_cases hc : nonDelim c
    · simp [List.takeWhile_cons, hc, ih]
    · simp [List.takeWhile_cons, hc]

theorem netlocSplit_fst_append (r ys : List Char)
    (hy : ∀ c ∈ ys, c = '/') :
    (netlocSplit (r ++ ys)).1 = (netlocSplit r).1 := by
  match r with
  | [] =>
    match ys, hy with
    | [], _ => rfl
    | [y], _ => rfl
    | y1 :: y2 :: t, hy =>
      have h1 : y1 = '/' := hy y1 (by simp)
      have h2 : y2 = '/' := hy y2 (by simp)
      have ht : ∀ c ∈ t, c = '/' := fun c hc => hy c (by simp [hc])
      simp [netlocSplit, h1, h2, takeWhile_nonDelim_all_slash ht]
  | [c1] =>
    match ys, hy with
    | [], _ => rfl
    | y :: t, hy =>
      have h1 : y = '/' := hy y (by simp)
      have ht : ∀ c ∈ t, c = '/' := fun c hc => hy c (by simp [hc])
      by_cases hc : c1 = '/'
      · simp [netlocSplit, hc, h1, takeWhile_nonDelim_all_slash ht]
      · simp [netlocSplit, hc]
  | c1 :: c2 :: q =>
    by_cases hc : c1 = '/' ∧ c2 = '/'
    · simp [netlocSplit, hc, takeWhile_nonDelim_append q ys hy]
    · simp [netlocSplit, hc]

theorem urlScheme_rstripSlash (s : String) :
    urlScheme (rstripSlash s) = urlScheme s := by
  obtain ⟨ys, hd, hy⟩ := rstripSlashL_decomp s.data
  show (⟨(schemeRest (rstripSlashL s.data)).1⟩ : String) = ⟨(schemeRest s.data).1⟩
  conv_rhs => rw [hd, schemeRest_append _ _ hy]

theorem urlHost_rstripSlash (s : String) :
    urlHost (rstripSlash s) = urlHost s := by
  obtain ⟨ys, hd, hy⟩ := rstripSlashL_decomp s.data
  show (⟨(netlocSplit (schemeRest (rstripSlashL s.data)).2).1⟩ : String)
      = ⟨(netlocSplit (schemeRest s.data).2).1⟩
  conv_rhs => rw [hd, schemeRest_append _ _ hy, netlocSplit_fst_append _ _ hy]

/-! ## Branch equations for the loop body -/

theorem crawlStep_nil (w : World) (cfg : CrawlConfig) (rp : RobotState)
    (s : CrawlState) (hq : s.queue = []) : crawlStep w cfg rp s = s := by
  simp [crawlStep, hq]

theorem crawlStep_excluded (w : World) (cfg : CrawlConfig) (rp : RobotState)
    (s : CrawlState) (current : String) (rest : List String)
    (hq : s.queue = current :: rest) (hex : isExcludedUrl current = true) :
    crawlStep w cfg rp s =
      { s with queue := rest, popped := s.popped ++ [current],
               trace := s.trace ++ [.skipExtension current] } := by
  simp [crawlStep, hq, hex]

theorem crawlStep_robots (w : World) (cfg : CrawlConfig) (rp : RobotState)
    (s : CrawlState) (current : String) (rest : List String)
    (hq : s.queue = current :: rest) (hex : isExcludedUrl current = false)
    (hrb : canFetch rp current = false) :
    crawlStep w cfg rp s =
      { s with queue := rest, popped := s.popped ++ [current],
               trace := s.trace ++ [.skipRobots current] } := by
  simp [crawlStep, hq, hex, hrb]

theorem crawlStep_requestError (w : World) (cfg : CrawlConfig) (rp : RobotState)
    (s : CrawlState) (current : String) (rest : List String)
    (hq : s.queue = current :: rest) (hex : isExcludedUrl current = false)
    (hrb : canFetch rp current = true) (hf : w.fetch current = none) :
    crawlStep w cfg rp s =
      { s with queue := rest, popped := s.popped ++ [current],
               trace := s.trace ++ [.fetch current, .errorRequest current, .sleep] } := by
  simp [crawlStep, hq, hex, hrb, hf]

theorem crawlStep_status (w : World) (cfg : CrawlConfig) (rp : RobotState)
    (s : CrawlState) (current : String) (rest : List String) (resp : Response)
    (hq : s.queue = current :: rest) (hex : isExcludedUrl current = false)
    (hrb : canFetch rp current = true) (hf : w.fetch current = some resp)
    (hst : resp.status ≠ 200) :
    crawlStep w cfg rp s =
      { s with queue := rest, popped := s.popped ++ [current],
               trace := s.trace ++ [.fetch current, .skipStatus current resp.status] } := by
  simp [crawlStep, hq, hex, hrb, hf, hst]

theorem crawlStep_contentType (w : World) (cfg : CrawlConfig) (rp : RobotState)
    (s : CrawlState) (current : String) (rest : List String) (resp : Response)
    (hq : s.queue = current :: rest) (hex : isExcludedUrl current = false)
    (hrb : canFetch rp current = true) (hf : w.fetch current = some resp)
    (hst : resp.status = 200)
    (hct : containsSub "text/html" (strToLower (resp.contentType.getD "")) = false) :
    crawlStep w cfg rp s =
      { s with queue := rest, popped := s.popped ++ [current],
               trace := s.trace ++
                 [.fetch current,
                  .skipContentType current (strToLower (resp.contentType.getD ""))] } := by
  simp [crawlStep, hq, hex, hrb, hf, hst, hct]

theorem crawlStep_parseError (w : World) (cfg : CrawlConfig) (rp : RobotState)
    (s : CrawlState) (current : String) (rest : List String) (resp : Response)
    (hq : s.queue = current :: rest) (hex : isExcludedUrl current = false)
    (hrb : canFetch rp current = true) (hf : w.fetch current = some resp)
    (hst : resp.status = 200)
    (hct : containsSub "text/html" (strToLower (resp.contentType.getD "")) = true)
    (hp : w.parse (removeHtmlComments resp.body) = none) :
    crawlStep w cfg rp s =
      { s with queue := rest, popped := s.popped ++ [current],
               trace := s.trace ++ [.fetch current, .errorOther current, .sleep] } := by
  simp [crawlStep, hq, hex, hrb, hf, hst, hct, hp]

theorem crawlStep_success (w : World) (cfg : CrawlConfig) (rp : RobotState)
    (s : CrawlState) (current : String) (rest : List String) (resp : Response)
    (doc : HtmlDoc)
    (hq : s.queue = current :: rest) (hex : isExcludedUrl current = false)
    (hrb : canFetch rp current = true) (hf : w.fetch current = some resp)
    (hst : resp.status = 200)
    (hct : containsSub "text/html" (strToLower (resp.contentType.getD "")) = true)
    (hp : w.parse (removeHtmlComments resp.body) = some doc) :
    crawlStep w cfg rp s =
      (let acc := doc.hrefs.foldl (processHref w (baseDomain cfg) current)
        (s.seen, rest, s.enqueuedLog)
      { queue := acc.2.1, seen := acc.1,
        results := s.results ++ [(current, extractTitle doc)],
        trace := s.trace ++ [.fetch current, .sleep],
        popped := s.popped ++ [current], enqueuedLog := acc.2.2 }) := by
  simp [crawlStep, hq, hex, hrb, hf, hst, hct, hp]

/-! ## Behaviour of the link-processing fold -/

/-- A single href either leaves the accumulator unchanged, or appends
one URL — absent from the seen set, with scheme http or https and host
equal to the base domain — to the seen set, the queue and the enqueue
log simultaneously. -/
theorem processHref_cases (w : World) (dom current : String)
    (acc : List String × List String × List String) (href0 : String) :
    processHref w dom current acc href0 = acc ∨
    ∃ n, n ∉ acc.1 ∧ (urlScheme n = "http" ∨ urlScheme n = "https") ∧
      urlHost n = dom ∧
      processHref w dom current acc href0 =
        (acc.1 ++ [n], acc.2.1 ++ [n], acc.2.2 ++ [n]) := by
  unfold processHref
  by_cases h1 : (strStartsWith (strTrim href0) "tel:" || strStartsWith (strTrim href0) "mailto:"
      || strStartsWith (strTrim href0) "javascript:") = true
  · left
    simp [h1]
  · rw [Bool.not_eq_true] at h1
    by_cases h2 : (urlScheme (dropFragment (w.resolve current (strTrim href0))) = "http" ∨
        urlScheme (dropFragment (w.resolve current (strTrim href0))) = "https") ∧
        urlHost (dropFragment (w.resolve current (strTrim href0))) = dom
    · by_cases h3 : rstripSlash (dropFragment (w.resolve current (strTrim href0))) ∈ acc.1
      · left
        simp [h1, h2, h3]
      · right
        refine ⟨rstripSlash (dropFragment (w.resolve current (strTrim href0))), h3, ?_, ?_, ?_⟩
        · rcases h2.1 with h | h
          · exact Or.inl ((urlScheme_rstripSlash _).trans h)
          · exact Or.inr ((urlScheme_rstripSlash _).trans h)
        · exact (urlHost_rstripSlash _).trans h2.2
        · simp [h1, h2, h3]
    · left
      simp [h1, h2]

/-- Folding a step function that preserves a predicate preserves it. -/
theorem foldl_preserve {α β : Type _} (P : α → Prop) (f : α → β → α)
    (h : ∀ a b, P a → P (f a b)) :
    ∀ (l : List β) (a : α), P a → P (l.foldl f a) := by
  intro l
  induction l with
  | nil => exact fun a ha => ha
  | cons b t ih => exact fun a ha => by simpa using ih (f a b) (h a b ha)

/-- The link fold only appends to the queue: the frontier is extended
at the back, never reordered (FIFO discipline of the deque). -/
theorem foldl_queue_extends (w : World) (dom current : String) :
    ∀ (l : List String) (acc : List String × List String × List String),
      ∃ new, (l.foldl (processHref w dom current) acc).2.1 = acc.2.1 ++ new := by
  intro l
  induction l with
  | nil => exact fun acc => ⟨[], by simp⟩
  | cons b t ih =>
    intro acc
    obtain ⟨n1, h1⟩ : ∃ n1, (processHref w dom current acc b).2.1 = acc.2.1 ++ n1 := by
      rcases processHref_cases w dom current acc b with h | ⟨n, _, _, _, h⟩
      · exact ⟨[], by simp [h]⟩
      · exact ⟨[n], by simp [h]⟩
    obtain ⟨n2, h2⟩ := ih (processHref w dom current acc b)
    refine ⟨n1 ++ n2, ?_⟩
    rw [List.foldl_cons, h2, h1, List.append_assoc]

/-- The trace observation splits over appended traces. -/
theorem fetchedUrls_append (a b : List Event) :
    fetchedUrls (a ++ b) = fetchedUrls a ++ fetchedUrls b :=
  List.filterMap_append a b _

theorem processHref_accInv (w : World) (dom current : String) (pop : List String)
    (acc : List String × List String × List String) (href0 : String)
    (h : AccInv pop acc) : AccInv pop (processHref w dom current acc href0) := by
  rcases processHref_cases w dom current acc href0 with he | ⟨n, hn, _, _, he⟩
  · rw [he]
    exact h
  · rw [he]
    obtain ⟨hnd, hsub, hlnd, hlsub⟩ := h
    have hn2 : n ∉ pop ++ acc.2.1 := fun hmem => hn (hsub n hmem)
    have hn3 : n ∉ acc.2.2 := fun hmem => hn (hlsub n hmem)
    refine ⟨?_, ?_, ?_, ?_⟩
    · show (pop ++ (acc.2.1 ++ [n])).Nodup
      rw [← List.append_assoc, List.nodup_append]
      refine ⟨hnd, List.nodup_singleton n, ?_⟩
      intro a ha hb
      rw [List.mem_singleton] at hb
      subst hb
      exact hn2 ha
    · intro u hu
      rw [← List.append_assoc] at hu
      rcases List.mem_append.mp hu with h | h
      · exact List.mem_append_left _ (hsub u h)
      · rw [List.mem_singleton] at h
        subst h
        exact List.mem_append_right _ (by simp)
    · show (acc.2.2 ++ [n]).Nodup
      rw [List.nodup_append]
      refine ⟨hlnd, List.nodup_singleton n, ?_⟩
      intro a ha hb
      rw [List.mem_singleton] at hb
      subst hb
      exact hn3 ha
    · intro u hu
      rcases List.mem_append.mp hu with h | h
      · exact List.mem_append_left _ (hlsub u h)
      · rw [List.mem_singleton] at h
        subst h
        exact List.mem_append_right _ (by simp)

/-- Every skip-shaped branch of the loop body (queue head popped,
trace extended by events issuing at most one GET for the popped URL,
other fields unchanged) preserves the dedup invariant. -/
theorem dedupInv_shift (s : CrawlState) (current : String) (rest : List String)
    (evs : List Event) (hq : s.queue = current :: rest)
    (hf : List.Sublist (fetchedUrls evs) [current]) (h : DedupInv s) :
    DedupInv { s with queue := rest, popped := s.popped ++ [current],
                      trace := s.trace ++ evs } := by
  obtain ⟨hnd, hsub, hres, hfet, hlnd, hlsub⟩ := h
  rw [hq] at hnd hsub
  have heq : s.popped ++ current :: rest = (s.popped ++ [current]) ++ rest := by
    simp
  rw [heq] at hnd hsub
  refine ⟨hnd, hsub, ?_, ?_, hlnd, hlsub⟩
  · exact hres.trans (List.sublist_append_left _ _)
  · show List.Sublist (fetchedUrls (s.trace ++ evs)) (s.popped ++ [current])
    rw [fetchedUrls_append]
    exact List.Sublist.append hfet hf

theorem dedupInv_step (w : World) (cfg : CrawlConfig) (rp : RobotState)
    (s : CrawlState) (h : DedupInv s) : DedupInv (crawlStep w cfg rp s) := by
  cases hq : s.queue with
  | nil =>
    rw [crawlStep_nil w cfg rp s hq]
    exact h
  | cons current rest =>
    by_cases hex : isExcludedUrl current = true
    · rw [crawlStep_excluded w cfg rp s current rest hq hex]
      exact dedupInv_shift s current rest _ hq (by simp [fetchedUrls]) h
    · rw [Bool.not_eq_true] at hex
      by_cases hrb : canFetch rp current = true
      case neg =>
        rw [Bool.not_eq_true] at hrb
        rw [crawlStep_robots w cfg rp s current rest hq hex hrb]
        exact dedupInv_shift s current rest _ hq (by simp [fetchedUrls]) h
      case pos =>
        cases hf : w.fetch current with
        | none =>
          rw [crawlStep_requestError w cfg rp s current rest hq hex hrb hf]
          exact dedupInv_shift s current rest _ hq
            (by simp [fetchedUrls, List.filterMap_cons]) h
        | some resp =>
          by_cases hst : resp.status = 200
          case neg =>
            rw [crawlStep_status w cfg rp s current rest resp hq hex hrb hf hst]
            exact dedupInv_shift s current rest _ hq
              (by simp [fetchedUrls, List.filterMap_cons]) h
          case pos =>
            by_cases hct : containsSub "text/html" (strToLower (resp.contentType.getD "")) = true
            case neg =>
              rw [Bool.not_eq_true] at hct
              rw [crawlStep_contentType w cfg rp s current rest resp hq hex hrb hf hst hct]
              exact dedupInv_shift s current rest _ hq
                (by simp [fetchedUrls, List.filterMap_cons]) h
            case pos =>
              cases hp : w.parse (removeHtmlComments resp.body) with
              | none =>
                rw [crawlStep_parseError w cfg rp s current rest resp hq hex hrb hf hst hct hp]
                exact dedupInv_shift s current rest _ hq
                  (by simp [fetchedUrls, List.filterMap_cons]) h
              | some doc =>
                rw [crawlStep_success w cfg rp s current rest resp doc hq hex hrb hf hst hct hp]
                obtain ⟨hnd, hsub, hres, hfet, hlnd, hlsub⟩ := h
                rw [hq] at hnd hsub
                have heq : s.popped ++ current :: rest = (s.popped ++ [current]) ++ rest := by
                  simp
                rw [heq] at hnd hsub
                have hacc : AccInv (s.popped ++ [current])
                    (doc.hrefs.foldl (processHref w (baseDomain cfg) current)
                      (s.seen, rest, s.enqueuedLog)) := by
                  refine foldl_preserve _ _
                    (fun a b ha => processHref_accInv w (baseDomain cfg) current _ a b ha)
                    doc.hrefs _ ⟨hnd, hsub, hlnd, hlsub⟩
                obtain ⟨hnd', hsub', hlnd', hlsub'⟩ := hacc
                refine ⟨hnd', hsub', ?_, ?_, hlnd', hlsub'⟩
                · show List.Sublist ((s.results ++ [(current, extractTitle doc)]).map Prod.fst)
                    (s.popped ++ [current])
                  rw [List.map_append]
                  exact List.Sublist.append hres (List.Sublist.refl _)
                · show List.Sublist (fetchedUrls (s.trace ++ [.fetch current, .sleep]))
                    (s.popped ++ [current])
                  rw [fetchedUrls_append]
                  refine List.Sublist.append hfet ?_
                  simp [fetchedUrls, List.filterMap_cons]

/-! ## Loop-level preservation and further invariants -/

/-- A predicate preserved by the step function is preserved by the
whole loop, for every fuel value. -/
theorem crawlLoop_preserve (w : World) (cfg : CrawlConfig) (rp : RobotState)
    (P : CrawlState → Prop) (hstep : ∀ s, P s → P (crawlStep w cfg rp s)) :
    ∀ (fuel : Nat) (s : CrawlState), P s → P (crawlLoop w cfg rp fuel s) := by
  intro fuel
  induction fuel with
  | zero => exact fun s hs => hs
  | succ f ih =>
    intro s hs
    rw [crawlLoop]
    split
    · exact ih _ (hstep s hs)
    · exact hs

theorem processHref_domInv (w : World) (dom current : String)
    (acc : List String × List String × List String) (href0 : String)
    (h : ∀ u ∈ acc.2.2,
      (urlScheme u = "http" ∨ urlScheme u = "https") ∧ urlHost u = dom) :
    ∀ u ∈ (processHref w dom current acc href0).2.2,
      (urlScheme u = "http" ∨ urlScheme u = "https") ∧ urlHost u = dom := by
  rcases processHref_cases w dom current acc href0 with he | ⟨n, _, hsc, hho, he⟩
  · rw [he]
    exact h
  · rw [he]
    intro u hu
    rcases List.mem_append.mp hu with hm | hm
    · exact h u hm
    · rw [List.mem_singleton] at hm
      subst hm
      exact ⟨hsc, hho⟩

theorem domInv_step (w : World) (cfg : CrawlConfig) (rp : RobotState)
    (s : CrawlState) (h : DomInv (baseDomain cfg) s) :
    DomInv (baseDomain cfg) (crawlStep w cfg rp s) := by
  cases hq : s.queue with
  | nil =>
    rw [crawlStep_nil w cfg rp s hq]
    exact h
  | cons current rest =>
    by_cases hex : isExcludedUrl current = true
    · rw [crawlStep_excluded w cfg rp s current rest hq hex]
      exact h
    · rw [Bool.not_eq_true] at hex
      by_cases hrb : canFetch rp current = true
      case neg =>
        rw [Bool.not_eq_true] at hrb
        rw [crawlStep_robots w cfg rp s current rest hq hex hrb]
        exact h
      case pos =>
        cases hf : w.fetch current with
        | none =>
          rw [crawlStep_requestError w cfg rp s current rest hq hex hrb hf]
          exact h
        | some resp =>
          by_cases hst : resp.status = 200
          case neg =>
            rw [crawlStep_status w cfg rp s current rest resp hq hex hrb hf hst]
            exact h
          case pos =>
            by_cases hct : containsSub "text/html" (strToLower (resp.contentType.getD "")) = true
            case neg =>
              rw [Bool.not_eq_true] at hct
              rw [crawlStep_contentType w cfg rp s current rest resp hq hex hrb hf hst hct]
              exact h
            case pos =>
              cases hp : w.parse (removeHtmlComments resp.body) with
              | none =>
                rw [crawlStep_parseError w cfg rp s current rest resp hq hex hrb hf hst hct hp]
                exact h
              | some doc =>
                rw [crawlStep_success w cfg rp s current rest resp doc hq hex hrb hf hst hct hp]
                exact foldl_preserve
                  (fun acc : List String × List String × List String =>
                    ∀ u ∈ acc.2.2,
                      (urlScheme u = "http" ∨ urlScheme u = "https") ∧
                        urlHost u = baseDomain cfg)
                  (processHref w (baseDomain cfg) current)
                  (fun a b ha => processHref_domInv w (baseDomain cfg) current a b ha)
                  doc.hrefs (s.seen, rest, s.enqueuedLog) h

theorem resOk_step (w : World) (cfg : CrawlConfig) (rp : RobotState)
    (s : CrawlState) (h : ResOk w s) : ResOk w (crawlStep w cfg rp s) := by
  cases hq : s.queue with
  | nil =>
    rw [crawlStep_nil w cfg rp s hq]
    exact h
  | cons current rest =>
    by_cases hex : isExcludedUrl current = true
    · rw [crawlStep_excluded w cfg rp s current rest hq hex]
      exact h
    · rw [Bool.not_eq_true] at hex
      by_cases hrb : canFetch rp current = true
      case neg =>
        rw [Bool.not_eq_true] at hrb
        rw [crawlStep_robots w cfg rp s current rest hq hex hrb]
        exact h
      case pos =>
        cases hf : w.fetch current with
        | none =>
          rw [crawlStep_requestError w cfg rp s current rest hq hex hrb hf]
          exact h
        | some resp =>
          by_cases hst : resp.status = 200
          case neg =>
            rw [crawlStep_status w cfg rp s current rest resp hq hex hrb hf hst]
            exact h
          case pos =>
            by_cases hct : containsSub "text/html" (strToLower (resp.contentType.getD "")) = true
            case neg =>
              rw [Bool.not_eq_true] at hct
              rw [crawlStep_contentType w cfg rp s current rest resp hq hex hrb hf hst hct]
              exact h
            case pos =>
              cases hp : w.parse (removeHtmlComments resp.body) with
              | none =>
                rw [crawlStep_parseError w cfg rp s current rest resp hq hex hrb hf hst hct hp]
                exact h
              | some doc =>
                rw [crawlStep_success w cfg rp s current rest resp doc hq hex hrb hf hst hct hp]
                intro p hp2
                rcases List.mem_append.mp hp2 with hm | hm
                · exact h p hm
                · rw [List.mem_singleton] at hm
                  subst hm
                  exact ⟨resp, doc, hf, hst, hct, hp⟩

/-- One loop iteration adds at most one result. -/
theorem crawlStep_results_length (w : World) (cfg : CrawlConfig) (rp : RobotState)
    (s : CrawlState) :
    (crawlStep w cfg rp s).results.length ≤ s.results.length + 1 := by
  cases hq : s.queue with
  | nil =>
    rw [crawlStep_nil w cfg rp s hq]
    omega
  | cons current rest =>
    by_cases hex : isExcludedUrl current = true
    · rw [crawlStep_excluded w cfg rp s current rest hq hex]
      simp
    · rw [Bool.not_eq_true] at hex
      by_cases hrb : canFetch rp current = true
      case neg =>
        rw [Bool.not_eq_true] at hrb
        rw [crawlStep_robots w cfg rp s current rest hq hex hrb]
        simp
      case pos =>
        cases hf : w.fetch current with
        | none =>
          rw [crawlStep_requestError w cfg rp s current rest hq hex hrb hf]
          simp
        | some resp =>
          by_cases hst : resp.status = 200
          case neg =>
            rw [crawlStep_status w cfg rp s current rest resp hq hex hrb hf hst]
            simp
          case pos =>
            by_cases hct : containsSub "text/html" (strToLower (resp.contentType.getD "")) = true
            case neg =>
              rw [Bool.not_eq_true] at hct
              rw [crawlStep_contentType w cfg rp s current rest resp hq hex hrb hf hst hct]
              simp
            case pos =>
              cases hp : w.parse (removeHtmlComments resp.body) with
              | none =>
                rw [crawlStep_parseError w cfg rp s current rest resp hq hex hrb hf hst hct hp]
                simp
              | some doc =>
                rw [crawlStep_success w cfg rp s current rest resp doc hq hex hrb hf hst hct hp]
                simp

/-- The loop keeps the result count within the page budget. -/
theorem crawlLoop_budget (w : World) (cfg : CrawlConfig) (rp : RobotState) :
    ∀ (fuel : Nat) (s : CrawlState), s.results.length ≤ cfg.maxPages →
      (crawlLoop w cfg rp fuel s).results.length ≤ cfg.maxPages := by
  intro fuel
  induction fuel with
  | zero => exact fun s hs => hs
  | succ f ih =>
    intro s hs
    rw [crawlLoop]
    split
    case isTrue hg =>
      refine ih _ ?_
      have h1 := crawlStep_results_length w cfg rp s
      have h2 := hg.2
      omega
    case isFalse => exact hs

/-- The loop halts the instant the budget is reached: from any state
already holding `maxPages` results it returns immediately. -/
theorem crawlLoop_stops_at_budget (w : World) (cfg : CrawlConfig) (rp : RobotState)
    (fuel : Nat) (s : CrawlState) (h : cfg.maxPages ≤ s.results.length) :
    crawlLoop w cfg rp fuel s = s := by
  cases fuel with
  | zero => rfl
  | succ f =>
    rw [crawlLoop, if_neg]
    intro hg
    have := hg.2
    omega

/-! ## Claim theorems -/

/-- C1: in every run, every normalized URL is fetched at most once (at
most one GET event per URL in the trace), appears at most once as a key
of the returned result mapping, and is enqueued at most once — because
a URL enters the seen set at first enqueue and only URLs absent from
the seen set are ever enqueued. -/
theorem c1_no_duplicate_visits (w : World) (cfg : CrawlConfig) (rf : RobotsFetch)
    (fuel : Nat) (u : String) :
    (fetchedUrls (runCrawl w cfg rf fuel).trace).count u ≤ 1 ∧
    ((runCrawl w cfg rf fuel).results.map Prod.fst).count u ≤ 1 ∧
    (runCrawl w cfg rf fuel).enqueuedLog.count u ≤ 1 := by
  have hinit : DedupInv (initState cfg) := by
    refine ⟨?_, ?_, ?_, ?_, ?_, ?_⟩ <;> simp [initState, fetchedUrls]
  have h := crawlLoop_preserve w cfg (robotsRead rf) DedupInv
    (fun s hs => dedupInv_step w cfg (robotsRead rf) s hs) fuel _ hinit
  obtain ⟨hnd, _, hres, hfet, hlnd, _⟩ := h
  have hpop : (runCrawl w cfg rf fuel).popped.Nodup := by
    rw [List.nodup_append] at hnd
    exact hnd.1
  refine ⟨?_, ?_, ?_⟩
  · exact List.nodup_iff_count_le_one.mp (hfet.nodup hpop) u
  · exact List.nodup_iff_count_le_one.mp (hres.nodup hpop) u
  · exact List.nodup_iff_count_le_one.mp hlnd u

/-- C2: the returned result mapping never exceeds the configured
`max_pages` budget, the loop returns immediately from any state whose
result count has reached the budget, and with `max_pages = 0` the run
records nothing and issues no GET at all. -/
theorem c2_budget_exactness (w : World) (cfg : CrawlConfig) (rf : RobotsFetch)
    (fuel : Nat) :
    (runCrawl w cfg rf fuel).results.length ≤ cfg.maxPages ∧
    (∀ s : CrawlState, cfg.maxPages ≤ s.results.length →
      crawlLoop w cfg (robotsRead rf) fuel s = s) ∧
    (cfg.maxPages = 0 →
      (runCrawl w cfg rf fuel).results = [] ∧
      fetchedUrls (runCrawl w cfg rf fuel).trace = []) := by
  refine ⟨?_, ?_, ?_⟩
  · exact crawlLoop_budget w cfg (robotsRead rf) fuel _ (by simp [initState])
  · exact fun s hs => crawlLoop_stops_at_budget w cfg (robotsRead rf) fuel s hs
  · intro h0
    have heq : runCrawl w cfg rf fuel = initState cfg := by
      unfold runCrawl
      exact crawlLoop_stops_at_budget w cfg (robotsRead rf) fuel _ (by simp [h0])
    rw [heq]
    exact ⟨rfl, rfl⟩

/-- Witness for C2 at a concrete zero-budget run. -/
theorem c2_budget_exactness_witness :
    ((runCrawl wBfs cfgZero robotsAllowAll 8).results = [] ∧
      fetchedUrls (runCrawl wBfs cfgZero robotsAllowAll 8).trace = []) ∧
    crawlLoop wBfs cfgZero (robotsRead robotsAllowAll) 8 (initState cfgZero) =
      initState cfgZero :=
  ⟨(c2_budget_exactness wBfs cfgZero robotsAllowAll 8).2.2 rfl,
   (c2_budget_exactness wBfs cfgZero robotsAllowAll 8).2.1 (initState cfgZero)
     (by simp [initState, cfgZero])⟩

/-- C3: in a run whose seed URL has scheme http or https, every URL
ever placed in the frontier has scheme http or https and host exactly
equal to the base domain extracted from the seed. -/
theorem c3_domain_containment (w : World) (cfg : CrawlConfig) (rf : RobotsFetch)
    (fuel : Nat)
    (hseed : urlScheme cfg.startUrl = "http" ∨ urlScheme cfg.startUrl = "https") :
    ∀ u ∈ (runCrawl w cfg rf fuel).enqueuedLog,
      (urlScheme u = "http" ∨ urlScheme u = "https") ∧
      urlHost u = baseDomain cfg := by
  have hinit : DomInv (baseDomain cfg) (initState cfg) := by
    intro u hu
    have hu2 : u = rstripSlash cfg.startUrl := by
      simpa [initState] using hu
    subst hu2
    refine ⟨?_, urlHost_rstripSlash _⟩
    rcases hseed with h | h
    · exact Or.inl ((urlScheme_rstripSlash _).trans h)
    · exact Or.inr ((urlScheme_rstripSlash _).trans h)
  exact crawlLoop_preserve w cfg (robotsRead rf) (DomInv (baseDomain cfg))
    (fun s hs => domInv_step w cfg (robotsRead rf) s hs) fuel _ hinit

/-- Witness for C3 at a URL discovered during the concrete BFS run. -/
theorem c3_domain_containment_witness :
    (urlScheme "http://s.test/b" = "http" ∨ urlScheme "http://s.test/b" = "https") ∧
    urlHost "http://s.test/b" = baseDomain cfgBfs :=
  c3_domain_containment wBfs cfgBfs robotsAllowAll 8 (Or.inl (by decide))
    "http://s.test/b" (by decide)

/-- C4: per-URL failures are contained.  Every recorded result belongs
to a URL whose fetch and parse fully succeeded (hence a URL whose
processing raised receives no entry and consumed no budget); a
transport exception and a parse exception each yield a normal
successor state — results unchanged, frontier advanced to the next
URL, an error event logged — and the loop always continues while the
guard (frontier nonempty, budget unreached) holds, so only frontier
exhaustion or the budget can stop the run. -/
theorem c4_failures_contained (w : World) (cfg : CrawlConfig) (rf : RobotsFetch)
    (fuel : Nat) :
    (∀ u t, (u, t) ∈ (runCrawl w cfg rf fuel).results → fetchOk w u) ∧
    (∀ (s : CrawlState) (current : String) (rest : List String),
      s.queue = current :: rest →
      isExcludedUrl current = false → canFetch (robotsRead rf) current = true →
      w.fetch current = none →
      crawlStep w cfg (robotsRead rf) s =
        { s with queue := rest, popped := s.popped ++ [current],
                 trace := s.trace ++ [.fetch current, .errorRequest current, .sleep] }) ∧
    (∀ (s : CrawlState) (current : String) (rest : List String) (resp : Response),
      s.queue = current :: rest →
      isExcludedUrl current = false → canFetch (robotsRead rf) current = true →
      w.fetch current = some resp → resp.status = 200 →
      containsSub "text/html" (strToLower (resp.contentType.getD "")) = true →
      w.parse (removeHtmlComments resp.body) = none →
      crawlStep w cfg (robotsRead rf) s =
        { s with queue := rest, popped := s.popped ++ [current],
                 trace := s.trace ++ [.fetch current, .errorOther current, .sleep] }) ∧
    (∀ (f : Nat) (s : CrawlState), s.queue ≠ [] → s.results.length < cfg.maxPages →
      crawlLoop w cfg (robotsRead rf) (f + 1) s =
        crawlLoop w cfg (robotsRead rf) f (crawlStep w cfg (robotsRead rf) s)) := by
  refine ⟨?_, ?_, ?_, ?_⟩
  · intro u t hmem
    have hinit : ResOk w (initState cfg) := by
      intro p hp
      simp [initState] at hp
    have h := crawlLoop_preserve w cfg (robotsRead rf) (ResOk w)
      (fun s hs => resOk_step w cfg (robotsRead rf) s hs) fuel _ hinit
    exact h (u, t) hmem
  · exact fun s current rest hq hex hrb hf =>
      crawlStep_requestError w cfg (robotsRead rf) s current rest hq hex hrb hf
  · exact fun s current rest resp hq hex hrb hf hst hct hp =>
      crawlStep_parseError w cfg (robotsRead rf) s current rest resp hq hex hrb hf hst hct hp
  · intro f s hne hlt
    rw [crawlLoop, if_pos ⟨hne, hlt⟩]

/-- Witness for C4: in a world whose transport always raises, the step
on the seed is the error-absorbing transition and the loop proceeds
past it. -/
theorem c4_failures_contained_witness :
    crawlStep wFail cfgBfs (robotsRead robotsAllowAll) (initState cfgBfs) =
      { initState cfgBfs with
          queue := [],
          popped := (initState cfgBfs).popped ++ ["http://s.test"],
          trace := (initState cfgBfs).trace ++
            [.fetch "http://s.test", .errorRequest "http://s.test", .sleep] } ∧
    crawlLoop wFail cfgBfs (robotsRead robotsAllowAll) 4 (initState cfgBfs) =
      crawlLoop wFail cfgBfs (robotsRead robotsAllowAll) 3
        (crawlStep wFail cfgBfs (robotsRead robotsAllowAll) (initState cfgBfs)) :=
  ⟨(c4_failures_contained wFail cfgBfs robotsAllowAll 4).2.1
      (initState cfgBfs) "http://s.test" [] rfl (by decide) rfl rfl,
   (c4_failures_contained wFail cfgBfs robotsAllowAll 4).2.2.2 3
      (initState cfgBfs) (by decide) (by decide)⟩

/-- C5 counterexample: the claim says a start-up robots.txt failure
makes the gate permissive, but in the concrete run whose robots read
raises — while the seed itself is perfectly fetchable — `can_fetch`
answers false for the seed, the popped seed is skipped as
robots-disallowed, no GET is ever issued, and the run returns an empty
mapping. -/
theorem c5_robots_failure_counterexample :
    (wBfs.fetch "http://s.test").isSome = true ∧
    canFetch (robotsRead .raises) "http://s.test" = false ∧
    (runCrawl wBfs cfgBfs .raises 8).trace = [.skipRobots "http://s.test"] ∧
    (runCrawl wBfs cfgBfs .raises 8).results = [] ∧
    fetchedUrls (runCrawl wBfs cfgBfs .raises 8).trace = [] := by
  decide

/-- C5 as amended: when loading robots.txt raises at start-up, the
`RobotFileParser` is left in its never-read state, whose `can_fetch`
answers false for every URL; the gate therefore defaults to
restrictive, every popped URL is skipped as robots-disallowed, and the
run fetches nothing and records nothing. -/
theorem c5_robots_failure_denies_all (w : World) (cfg : CrawlConfig)
    (fuel : Nat) (u : String) :
    canFetch (robotsRead .raises) u = false ∧
    (runCrawl w cfg .raises fuel).results = [] ∧
    fetchedUrls (runCrawl w cfg .raises fuel).trace = [] := by
  refine ⟨rfl, ?_⟩
  have hstep : ∀ s : CrawlState,
      (s.results = [] ∧ fetchedUrls s.trace = []) →
      ((crawlStep w cfg (robotsRead .raises) s).results = [] ∧
        fetchedUrls (crawlStep w cfg (robotsRead .raises) s).trace = []) := by
    intro s hs
    cases hq : s.queue with
    | nil =>
      rw [crawlStep_nil w cfg _ s hq]
      exact hs
    | cons current rest =>
      by_cases hex : isExcludedUrl current = true
      · rw [crawlStep_excluded w cfg _ s current rest hq hex]
        refine ⟨hs.1, ?_⟩
        rw [fetchedUrls_append, hs.2]
        rfl
      · rw [Bool.not_eq_true] at hex
        rw [crawlStep_robots w cfg (robotsRead .raises) s current rest hq hex rfl]
        refine ⟨hs.1, ?_⟩
        rw [fetchedUrls_append, hs.2]
        rfl
  have h := crawlLoop_preserve w cfg (robotsRead .raises)
    (fun s => s.results = [] ∧ fetchedUrls s.trace = []) hstep fuel
    (initState cfg) ⟨rfl, rfl⟩
  exact h

/-- C6: the frontier is FIFO, so the synthetic site where A links to B
and C and B links to D is visited in breadth-first order A, B, C, D
with budget at least 4; in general, every loop iteration pops the head
of the frontier and appends newly discovered URLs at the back. -/
theorem c6_bfs_order :
    fetchedUrls (runCrawl wBfs cfgBfs robotsAllowAll 8).trace =
      ["http://s.test", "http://s.test/b", "http://s.test/c", "http://s.test/d"] ∧
    ∀ (w : World) (cfg : CrawlConfig) (rp : RobotState) (s : CrawlState)
      (current : String) (rest : List String), s.queue = current :: rest →
      ∃ new, (crawlStep w cfg rp s).queue = rest ++ new := by
  constructor
  · decide
  · intro w cfg rp s current rest hq
    by_cases hex : isExcludedUrl current = true
    · rw [crawlStep_excluded w cfg rp s current rest hq hex]
      exact ⟨[], by simp⟩
    · rw [Bool.not_eq_true] at hex
      by_cases hrb : canFetch rp current = true
      case neg =>
        rw [Bool.not_eq_true] at hrb
        rw [crawlStep_robots w cfg rp s current rest hq hex hrb]
        exact ⟨[], by simp⟩
      case pos =>
        cases hf : w.fetch current with
        | none =>
          rw [crawlStep_requestError w cfg rp s current rest hq hex hrb hf]
          exact ⟨[], by simp⟩
        | some resp =>
          by_cases hst : resp.status = 200
          case neg =>
            rw [crawlStep_status w cfg rp s current rest resp hq hex hrb hf hst]
            exact ⟨[], by simp⟩
          case pos =>
            by_cases hct : containsSub "text/html" (strToLower (resp.contentType.getD "")) = true
            case neg =>
              rw [Bool.not_eq_true] at hct
              rw [crawlStep_contentType w cfg rp s current rest resp hq hex hrb hf hst hct]
              exact ⟨[], by simp⟩
            case pos =>
              cases hp : w.parse (removeHtmlComments resp.body) with
              | none =>
                rw [crawlStep_parseError w cfg rp s current rest resp hq hex hrb hf hst hct hp]
                exact ⟨[], by simp⟩
              | some doc =>
                rw [crawlStep_success w cfg rp s current rest resp doc hq hex hrb hf hst hct hp]
                exact foldl_queue_extends w (baseDomain cfg) current doc.hrefs
                  (s.seen, rest, s.enqueuedLog)

/-- Witness for C6: the first step of the synthetic run pops the seed
and appends its two discovered links at the back of the frontier. -/
theorem c6_bfs_order_witness :
    ∃ new, (crawlStep wBfs cfgBfs (robotsRead robotsAllowAll) (initState cfgBfs)).queue =
      [] ++ new :=
  c6_bfs_order.2 wBfs cfgBfs (robotsRead robotsAllowAll) (initState cfgBfs)
    "http://s.test" [] rfl

/-- C7 counterexample: the claim says a URL is excluded exactly when
its lower-cased path ends with a configured suffix, but the code tests
the whole URL string: for the concrete URL `https://x.com/doc.pdf?x=1`
the path ends with `.pdf` (so the claim classifies it excluded) while
the code filter answers false and the URL would be fetched. -/
theorem c7_extension_filter_counterexample :
    isExcludedUrl "https://x.com/doc.pdf?x=1" = false ∧
    urlPath "https://x.com/doc.pdf?x=1" = "/doc.pdf" ∧
    strEndsWith (strToLower (urlPath "https://x.com/doc.pdf?x=1")) ".pdf" = true ∧
    specPathExcluded "https://x.com/doc.pdf?x=1" = true := by
  decide

/-- C7 as amended: the extension filter is a pure function that
lower-cases the whole URL string and classifies it excluded exactly
when that lower-cased string ends with a member of the fixed suffix
set; `https://x.com/doc.PDF` is excluded and `https://x.com/page` is
not, and an excluded URL is skipped before any fetch — the step pops
it, records nothing, issues no GET, and consumes no budget. -/
theorem c7_extension_filter_amended :
    (∀ url, isExcludedUrl url =
      EXCLUDED_EXTENSIONS.any (fun ext => strEndsWith (strToLower url) ext)) ∧
    isExcludedUrl "https://x.com/doc.PDF" = true ∧
    isExcludedUrl "https://x.com/page" = false ∧
    (∀ (w : World) (cfg : CrawlConfig) (rp : RobotState) (s : CrawlState)
      (current : String) (rest : List String),
      s.queue = current :: rest → isExcludedUrl current = true →
      crawlStep w cfg rp s =
        { s with queue := rest, popped := s.popped ++ [current],
                 trace := s.trace ++ [.skipExtension current] }) := by
  refine ⟨fun url => rfl, by decide, by decide, ?_⟩
  exact fun w cfg rp s current rest hq hex =>
    crawlStep_excluded w cfg rp s current rest hq hex

/-- Witness for C7 at the concrete excluded URL. -/
theorem c7_extension_filter_amended_witness :
    crawlStep wBfs cfgBfs (robotsRead robotsAllowAll) sExt =
      { sExt with queue := [], popped := sExt.popped ++ ["https://x.com/doc.PDF"],
                  trace := sExt.trace ++ [.skipExtension "https://x.com/doc.PDF"] } :=
  c7_extension_filter_amended.2.2.2 wBfs cfgBfs (robotsRead robotsAllowAll) sExt
    "https://x.com/doc.PDF" [] rfl (by decide)

/-- C8: the claim states HTML comment spans are removed before
parsing, and the code indeed intends to (its inline comment reads
「HTMLコメントを削除」), but the pattern in `re.sub(r'', '', html_content,
flags=re.DOTALL)` at kadai.py line 101 is empty, so the substitution is
the identity: for every body the string handed to the parser is the
body itself, and at the concrete failing input the comment span
survives into the parser. -/
theorem c8_comment_stripping_noop :
    (∀ s, removeHtmlComments s = s) ∧
    removeHtmlComments "<p>a</p><!-- hidden --><p>b</p>" =
      "<p>a</p><!-- hidden --><p>b</p>" ∧
    containsSub "<!--" (removeHtmlComments "<p>a</p><!-- hidden --><p>b</p>") = true :=
  ⟨fun _ => rfl, rfl, by decide⟩

/-- C9 counterexample: the claim says the inter-request delay is
observed in every iteration that issued a GET, including status skips,
but in the concrete run whose seed answers 404 the iteration issues the
GET, skips on status via `continue`, and the trace contains no sleep
event at all. -/
theorem c9_no_delay_on_status_skip_counterexample :
    (runCrawl wStatus404 cfgBfs robotsAllowAll 5).trace =
      [.fetch "http://s.test", .skipStatus "http://s.test" 404] ∧
    Event.sleep ∉ (runCrawl wStatus404 cfgBfs robotsAllowAll 5).trace := by
  decide

/-- C9 as amended: among the iterations that issue a GET, the delay is
observed after a transport failure, after a successful page, and after
a decode/parse failure; the status-skip and content-type-skip
iterations leave the `try` block with `continue` and bypass the delay. -/
theorem c9_delay_amended (w : World) (cfg : CrawlConfig) (rp : RobotState)
    (s : CrawlState) (current : String) (rest : List String)
    (hq : s.queue = current :: rest) (hex : isExcludedUrl current = false)
    (hrb : canFetch rp current = true) :
    (w.fetch current = none →
      (crawlStep w cfg rp s).trace =
        s.trace ++ [.fetch current, .errorRequest current, .sleep]) ∧
    (∀ resp doc, w.fetch current = some resp → resp.status = 200 →
      containsSub "text/html" (strToLower (resp.contentType.getD "")) = true →
      w.parse (removeHtmlComments resp.body) = some doc →
      (crawlStep w cfg rp s).trace = s.trace ++ [.fetch current, .sleep]) ∧
    (∀ resp, w.fetch current = some resp → resp.status = 200 →
      containsSub "text/html" (strToLower (resp.contentType.getD "")) = true →
      w.parse (removeHtmlComments resp.body) = none →
      (crawlStep w cfg rp s).trace =
        s.trace ++ [.fetch current, .errorOther current, .sleep]) ∧
    (∀ resp, w.fetch current = some resp → resp.status ≠ 200 →
      (crawlStep w cfg rp s).trace =
        s.trace ++ [.fetch current, .skipStatus current resp.status] ∧
      Event.sleep ∉ [Event.fetch current, Event.skipStatus current resp.status]) ∧
    (∀ resp, w.fetch current = some resp → resp.status = 200 →
      containsSub "text/html" (strToLower (resp.contentType.getD "")) = false →
      (crawlStep w cfg rp s).trace =
        s.trace ++ [.fetch current,
          .skipContentType current (strToLower (resp.contentType.getD ""))] ∧
      Event.sleep ∉ [Event.fetch current,
        Event.skipContentType current (strToLower (resp.contentType.getD ""))]) := by
  refine ⟨?_, ?_, ?_, ?_, ?_⟩
  · intro hf
    rw [crawlStep_requestError w cfg rp s current rest hq hex hrb hf]
  · intro resp doc hf hst hct hp
    rw [crawlStep_success w cfg rp s current rest resp doc hq hex hrb hf hst hct hp]
  · intro resp hf hst hct hp
    rw [crawlStep_parseError w cfg rp s current rest resp hq hex hrb hf hst hct hp]
  · intro resp hf hst
    refine ⟨?_, by simp⟩
    rw [crawlStep_status w cfg rp s current rest resp hq hex hrb hf hst]
  · intro resp hf hst hct
    refine ⟨?_, by simp⟩
    rw [crawlStep_contentType w cfg rp s current rest resp hq hex hrb hf hst hct]

/-- Witness for C9 at the concrete 404 world: the step issues the GET
and its iteration appends no sleep event. -/
theorem c9_delay_amended_witness :
    (crawlStep wStatus404 cfgBfs (robotsRead robotsAllowAll) (initState cfgBfs)).trace =
      (initState cfgBfs).trace ++
        [.fetch "http://s.test", .skipStatus "http://s.test" 404] ∧
    Event.sleep ∉ [Event.fetch "http://s.test", Event.skipStatus "http://s.test" 404] :=
  (c9_delay_amended wStatus404 cfgBfs (robotsRead robotsAllowAll) (initState cfgBfs)
      "http://s.test" [] rfl (by decide) rfl).2.2.2.1
    ⟨404, some "text/html", ""⟩ (by decide) (by decide)

/-- C10: a title element with no single text string — absent, empty,
or holding nested markup — records the same sentinel
「タイトルなし」 as an absent element; a title element with a text
string records that string with surrounding whitespace stripped, and
the successful step records exactly this extracted value. -/
theorem c10_title_sentinel (hrefs : List String) :
    extractTitle ⟨none, hrefs⟩ = "タイトルなし" ∧
    extractTitle ⟨some none, hrefs⟩ = "タイトルなし" ∧
    extractTitle ⟨some (some ""), hrefs⟩ = "タイトルなし" ∧
    (∀ str, str ≠ "" → extractTitle ⟨some (some str), hrefs⟩ = strTrim str) ∧
    (∀ (w : World) (cfg : CrawlConfig) (rp : RobotState) (s : CrawlState)
      (current : String) (rest : List String) (resp : Response) (doc : HtmlDoc),
      s.queue = current :: rest →
      isExcludedUrl current = false → canFetch rp current = true →
      w.fetch current = some resp → resp.status = 200 →
      containsSub "text/html" (strToLower (resp.contentType.getD "")) = true →
      w.parse (removeHtmlComments resp.body) = some doc →
      (crawlStep w cfg rp s).results = s.results ++ [(current, extractTitle doc)]) := by
  refine ⟨rfl, rfl, rfl, ?_, ?_⟩
  · intro str hstr
    simp [extractTitle, hstr]
  · intro w cfg rp s current rest resp doc hq hex hrb hf hst hct hp
    rw [crawlStep_success w cfg rp s current rest resp doc hq hex hrb hf hst hct hp]

/-- Witness for C10: a padded title string is recorded trimmed, and
the first step of the synthetic run records the extracted title of
page A. -/
theorem c10_title_sentinel_witness :
    extractTitle ⟨some (some "  Home  "), []⟩ = strTrim "  Home  " ∧
    (crawlStep wBfs cfgBfs (robotsRead robotsAllowAll) (initState cfgBfs)).results =
      (initState cfgBfs).results ++
        [("http://s.test",
          extractTitle ⟨some (some "A"), ["http://s.test/b", "http://s.test/c"]⟩)] :=
  ⟨(c10_title_sentinel []).2.2.2.1 "  Home  " (by decide),
   (c10_title_sentinel []).2.2.2.2 wBfs cfgBfs (robotsRead robotsAllowAll)
     (initState cfgBfs) "http://s.test" [] ⟨200, some "text/html", "http://s.test"⟩
     ⟨some (some "A"), ["http://s.test/b", "http://s.test/c"]⟩
     rfl (by decide) rfl (by decide) rfl (by decide) (by decide)⟩

end Kadai
